import Mathlib

/-
  Verification development for the dns-resolver repository.

  The Rust sources are shallowly embedded at the byte level:

  * A Rust `String` is a vector of UTF-8 bytes; we model it as `List Nat`
    (every element < 256 in any reachable state).  `str::from_utf8`
    becomes a UTF-8 validity check that returns the same bytes;
    `split('.')` becomes a byte-level split on 46 (valid because `.` is
    ASCII and UTF-8 continuation bytes are >= 128); `join(".")` becomes
    `List.intercalate [46]`; `str::len` is the byte length, exactly as in
    Rust.
  * Buffers (`DnsReadBuffer` / `DnsWriteBuffer`) are `List Nat` plus an
    explicit index; reading returns `Except` values threaded with the
    new index, writing is pure appending.
  * The name reader `read_name_at` in src/buffer.rs is a recursive
    function with no termination guarantee, so it is embedded with an
    explicit fuel parameter counting length-octet reads; `none` means
    the fuel ran out.  A terminating run of the source code reads each
    buffer position at most once (the iteration state that drives
    control flow is just the index, so a repeated position repeats
    forever), hence it performs at most `data.length + 1` length-octet
    reads; `read_str` is therefore embedded with fuel
    `data.length + 1`, and a `none` result characterises exactly the
    inputs on which the source recursion never returns.
-/

namespace DnsResolver

/-- Rust `String` modelled as its UTF-8 byte vector. -/
abbrev RStr := List Nat

/-- Byte-level model of Rust `str::split('.')` (46 is the dot byte):
splitting a UTF-8 string at ASCII dots is a byte-level split. -/
def splitOnDot : RStr → List RStr
  | [] => [[]]
  | b :: rest =>
    if b = 46 then [] :: splitOnDot rest
    else
      match splitOnDot rest with
      | l :: ls => (b :: l) :: ls
      | [] => [[b]]

/-- Byte-level model of `Vec::join(".")` on label strings. -/
def joinDots (labels : List RStr) : RStr :=
  List.intercalate [46] labels

/-- Continuation byte of a UTF-8 sequence. -/
def isContByte (b : Nat) : Bool := 128 ≤ b && b ≤ 191

/-- UTF-8 validity, mirroring the checks performed by Rust
`str::from_utf8` (RFC 3629 table). -/
def validUtf8 : List Nat → Bool
  | [] => true
  | b :: rest =>
    if b ≤ 127 then validUtf8 rest
    else if b < 194 then false
    else if b ≤ 223 then
      match rest with
      | c1 :: r => isContByte c1 && validUtf8 r
      | [] => false
    else if b ≤ 239 then
      match rest with
      | c1 :: c2 :: r =>
        (if b = 224 then 160 ≤ c1 && c1 ≤ 191
         else if b = 237 then 128 ≤ c1 && c1 ≤ 159
         else isContByte c1) && isContByte c2 && validUtf8 r
      | _ => false
    else if b ≤ 244 then
      match rest with
      | c1 :: c2 :: c3 :: r =>
        (if b = 240 then 144 ≤ c1 && c1 ≤ 191
         else if b = 244 then 128 ≤ c1 && c1 ≤ 143
         else isContByte c1) && isContByte c2 && isContByte c3 && validUtf8 r
      | _ => false
    else false

/-- Model of `str::from_utf8` / `String::from_utf8`: validates the bytes
and, since a Rust `String` is modelled by its bytes, returns them. -/
def fromUtf8 (s : List Nat) : Option RStr :=
  if validUtf8 s then some s else none

/-- Model of Rust slice indexing `data.get(i..j)`: `none` when the range
is invalid or extends past the end. -/
def sliceGet (data : List Nat) (i j : Nat) : Option (List Nat) :=
  if i ≤ j ∧ j ≤ data.length then some ((data.drop i).take (j - i)) else none

/-- Errors of `DnsBufferError` in src/types.rs. -/
inductive BufErr
  | endOfBuffer
  | invalidString
  | labelTooLong
  deriving DecidableEq, Repr

/-- The loop body of `DnsReadBuffer::read_name_at` (src/buffer.rs,
lines 132-187), with an explicit fuel bounding the number of
length-octet reads.  State: current index, accumulated labels, the
`jumped` flag and saved `jump_index` of the source.  A pointer octet
(top two bits `11`) triggers a recursive read at the pointer target and
then terminates the name; a zero octet terminates it; any other octet is
taken as a label length.  `none` means the fuel was exhausted. -/
def readNameLoop (data : List Nat) :
    Nat → Nat → List RStr → Bool → Nat → Option (Except BufErr (RStr × Nat))
  | 0, _, _, _, _ => none
  | fuel + 1, idx, labels, jumped, jumpIdx =>
    match data.get? idx with
    | none => some (.error .endOfBuffer)
    | some len =>
      if len &&& 192 = 192 then
        match data.get? (idx + 1) with
        | none => some (.error .endOfBuffer)
        | some b2 =>
          let ptr := ((len &&& 63) <<< 8) ||| b2
          if data.length ≤ ptr then some (.error .invalidString)
          else
            let jumpIdx' := if !jumped then idx + 2 else jumpIdx
            match readNameLoop data fuel ptr [] false 0 with
            | none => none
            | some (.error e) => some (.error e)
            | some (.ok (name, _)) =>
              some (.ok
                (if (labels ++ [name]).isEmpty then [46]
                 else joinDots (labels ++ [name]), jumpIdx'))
      else if len = 0 then
        some (.ok
          (if labels.isEmpty then [46] else joinDots labels,
           if jumped then jumpIdx else idx + 1))
      else
        match sliceGet data (idx + 1) (idx + 1 + len) with
        | none => some (.error .endOfBuffer)
        | some labelBytes =>
          match fromUtf8 labelBytes with
          | none => some (.error .invalidString)
          | some label =>
            readNameLoop data fuel (idx + 1 + len) (labels ++ [label]) jumped jumpIdx

/-- `read_name_at` with explicit fuel. -/
def readNameAtF (fuel : Nat) (data : List Nat) (idx : Nat) :
    Option (Except BufErr (RStr × Nat)) :=
  readNameLoop data fuel idx [] false 0

/-- `DnsReadBuffer::read_str`: runs `read_name_at` at the given index.
Fuel `data.length + 1` strictly exceeds the number of length-octet
reads of any terminating run of the source recursion (see the header
comment), so `none` holds exactly when the source diverges. -/
def readStrP (data : List Nat) (idx : Nat) : Option (Except BufErr (RStr × Nat)) :=
  readNameAtF (data.length + 1) data idx

/-- Big-endian bytes of a 16-bit value (`u16::to_be_bytes`). -/
def u16be (v : Nat) : List Nat := [v / 256 % 256, v % 256]

/-- Big-endian bytes of a 32-bit value (`u32::to_be_bytes`). -/
def u32be (v : Nat) : List Nat :=
  [v / 16777216 % 256, v / 65536 % 256, v / 256 % 256, v % 256]

/-- `DnsWriteBuffer::write_u8` (the `as u8` casts happen at call sites). -/
def writeU8 (buf : List Nat) (v : Nat) : List Nat := buf ++ [v]

/-- `DnsWriteBuffer::write_u16`. -/
def writeU16 (buf : List Nat) (v : Nat) : List Nat := buf ++ u16be v

/-- `DnsWriteBuffer::write_u32`. -/
def writeU32 (buf : List Nat) (v : Nat) : List Nat := buf ++ u32be v

/-- The label loop of `DnsWriteBuffer::write_str` (src/buffer.rs, lines
258-269): every label produced by the split (empty ones included) is
written length-prefixed; a label longer than 63 bytes aborts with
`LabelTooLong`, leaving the bytes written so far in place; after the
loop a terminating zero is written. -/
def writeLabels : List RStr → List Nat → Except BufErr Unit × List Nat
  | [], buf => (.ok (), buf ++ [0])
  | l :: ls, buf =>
    if 63 < l.length then (.error .labelTooLong, buf)
    else writeLabels ls (writeU8 buf (l.length % 256) ++ l)

/-- `DnsWriteBuffer::write_str`: split on dots and write the labels. -/
def writeStr (name : RStr) (buf : List Nat) : Except BufErr Unit × List Nat :=
  writeLabels (splitOnDot name) buf

/-- `Buffer::write_string` of src/src/dns/parser.rs (lines 131-141): the
empty name is written as a single zero byte; otherwise every label is
written length-prefixed with no length check (`label.len() as u8`
truncates), then a zero terminator. -/
def writeString (name : RStr) (buf : List Nat) : List Nat :=
  if name.isEmpty then writeU8 buf 0
  else writeU8 ((splitOnDot name).foldl (fun b l => writeU8 b (l.length % 256) ++ l) buf) 0

/-- Label-block bytes of a label list, without the zero terminator. -/
def labelsEncNoTerm (ls : List RStr) : List Nat :=
  ls.foldr (fun l acc => (l.length :: l) ++ acc) []

/-- Label-block bytes of a label list followed by the zero terminator:
what `write_str` appends on success. -/
def labelsEnc (ls : List RStr) : List Nat := labelsEncNoTerm ls ++ [0]

/-- The wire encoding of a domain name as produced by `write_str`. -/
def nameEnc (s : RStr) : List Nat := labelsEnc (splitOnDot s)

/-! ## Message model (src/types.rs) -/

/-- `DnsError` of src/types.rs. -/
inductive DnsError
  | invalidField
  | invalidRData
  | socketError
  | ioError (msg : String)
  deriving DecidableEq, Repr

/-- Header flags (`Flags` of src/types.rs); `opcode`, `z`, `rcode` are
`u8` in the source. -/
structure Flags where
  qr : Bool
  opcode : Nat
  aa : Bool
  tc : Bool
  rd : Bool
  ra : Bool
  z : Nat
  rcode : Nat
  deriving DecidableEq, Repr

/-- `RData` of src/types.rs, restricted to the variants the codec can
produce or consume.  (The `TXT`, `MX`, `SOA`, `PTR` variants of the
source are dead: the decoder never builds them and the encoder match has
no arm for them, the corresponding arms being commented out.)  `A`
carries the four octets of the `Ipv4Addr`, `AAAA` the eight big-endian
16-bit segments of the `Ipv6Addr`. -/
inductive RData
  | A (octets : List Nat)
  | AAAA (segs : List Nat)
  | NS (name : RStr)
  | CNAME (name : RStr)
  | EMPTY
  deriving DecidableEq, Repr

/-- `RData::as_cname`. -/
def RData.asCname : RData → Option RStr
  | .CNAME n => some n
  | _ => none

structure Header where
  id : Nat
  flags : Flags
  qd_count : Nat
  an_count : Nat
  ns_count : Nat
  ar_count : Nat
  deriving DecidableEq, Repr

structure QueryRecord where
  qname : RStr
  qtype : Nat
  qclass : Nat
  deriving DecidableEq, Repr

structure AnswerRecord where
  aname : RStr
  atype : Nat
  aclass : Nat
  ttl : Nat
  length : Nat
  rdata : RData
  deriving DecidableEq, Repr

structure Dns where
  header : Header
  questions : List QueryRecord
  answers : List AnswerRecord
  authorities : List AnswerRecord
  additionals : List AnswerRecord
  deriving DecidableEq, Repr

/-- `Type::from_u16` of src/types.rs, as the numeric codes it accepts. -/
def typeFromU16 (v : Nat) : Option Nat :=
  if v = 1 ∨ v = 2 ∨ v = 5 ∨ v = 6 ∨ v = 12 ∨ v = 15 ∨ v = 16 ∨ v = 28
  then some v else none

/-! ## Flags packing (src/dns.rs, `encode_flags` / `decode_flags`) -/

def b2n (b : Bool) : Nat := if b then 1 else 0

/-- `Dns::encode_flags`: the `u8 as u16` casts are lossless, but the
`<< 11` on the opcode wraps in `u16`, hence the `% 65536`. -/
def encodeFlags (f : Flags) : Nat :=
  (b2n f.qr <<< 15) ||| ((f.opcode <<< 11) % 65536) ||| (b2n f.aa <<< 10) |||
  (b2n f.tc <<< 9) ||| (b2n f.rd <<< 8) ||| (b2n f.ra <<< 7) |||
  (f.z <<< 4) ||| f.rcode

/-- `Dns::decode_flags`. -/
def decodeFlags (raw : Nat) : Flags where
  qr := raw &&& 32768 != 0
  opcode := (raw &&& 30720) >>> 11
  aa := raw &&& 1024 != 0
  tc := raw &&& 512 != 0
  rd := raw &&& 256 != 0
  ra := raw &&& 128 != 0
  z := (raw &&& 112) >>> 4
  rcode := raw &&& 15

/-! ## Decoder (src/buffer.rs reads and src/dns.rs `Dns::decode`)

A decoding step is a function of the full message bytes and the current
cursor, returning the decoded value and the new cursor; the `Option`
layer records divergence of the underlying name reader (`none` = the
source never returns). -/

abbrev Decoder (α : Type) := List Nat → Nat → Option (Except DnsError (α × Nat))

def dbind {α β : Type} (p : Decoder α) (f : α → Decoder β) : Decoder β := fun d i =>
  match p d i with
  | none => none
  | some (.error e) => some (.error e)
  | some (.ok (a, j)) => f a d j

def dpure {α : Type} (a : α) : Decoder α := fun _ i => some (.ok (a, i))

def dfail {α : Type} (e : DnsError) : Decoder α := fun _ _ => some (.error e)

/-- `DnsReadBuffer::get_index`. -/
def dgetIdx : Decoder Nat := fun _ i => some (.ok (i, i))

/-- `DnsReadBuffer::read_u8`. -/
def readU8P (d : List Nat) (i : Nat) : Except BufErr (Nat × Nat) :=
  match d.get? i with
  | none => .error .endOfBuffer
  | some b => .ok (b, i + 1)

/-- `DnsReadBuffer::read_u16` (`data.get(i..i+2)` then big-endian). -/
def readU16P (d : List Nat) (i : Nat) : Except BufErr (Nat × Nat) :=
  match sliceGet d i (i + 2) with
  | none => .error .endOfBuffer
  | some bs => .ok (bs.getD 0 0 * 256 + bs.getD 1 0, i + 2)

/-- `DnsReadBuffer::read_u32`. -/
def readU32P (d : List Nat) (i : Nat) : Except BufErr (Nat × Nat) :=
  match sliceGet d i (i + 4) with
  | none => .error .endOfBuffer
  | some bs =>
    .ok (bs.getD 0 0 * 16777216 + bs.getD 1 0 * 65536 +
         bs.getD 2 0 * 256 + bs.getD 3 0, i + 4)

/-- `DnsReadBuffer::read_n_bytes`. -/
def readNBytesP (n : Nat) (d : List Nat) (i : Nat) : Except BufErr (List Nat × Nat) :=
  match sliceGet d i (i + n) with
  | none => .error .endOfBuffer
  | some bs => .ok (bs, i + n)

/-- Lift a buffer read into the decoder, mapping buffer errors to
`InvalidField` as every call site in `Dns::decode` does. -/
def liftB {α : Type} (p : List Nat → Nat → Except BufErr (α × Nat)) : Decoder α :=
  fun d i => some ((p d i).mapError fun _ => DnsError.invalidField)

def rdU8 : Decoder Nat := liftB readU8P
def rdU16 : Decoder Nat := liftB readU16P
def rdU32 : Decoder Nat := liftB readU32P
def rdNBytes (n : Nat) : Decoder (List Nat) := liftB (readNBytesP n)

/-- `DnsReadBuffer::read_str`, lifted (errors become `InvalidField`). -/
def rdStr : Decoder RStr := fun d i =>
  (readStrP d i).map (Except.mapError fun _ => DnsError.invalidField)

/-- The `while buf.get_index() < stat + length` byte-skipping loop of
`decode_rdata`: reads single bytes (`InvalidField` past the end) until
the target index is reached. -/
def skipGo (d : List Nat) : Nat → Nat → Except DnsError (Unit × Nat)
  | 0, i => .ok ((), i)
  | n + 1, i =>
    match d.get? i with
    | none => .error .invalidField
    | some _ => skipGo d n (i + 1)

def skipTo (target : Nat) : Decoder Unit := fun d i => some (skipGo d (target - i) i)

/-- The eight big-endian 16-bit groups of an AAAA rdata. -/
def segsOf : List Nat → List Nat
  | a :: b :: rest => (a * 256 + b) :: segsOf rest
  | _ => []

/-- `Dns::decode_rdata` (src/dns.rs, lines 43-96).  The source matches on
`atype` with arms `1`, `28`, `2 | 5` and a default; this is rendered as
an `if` chain on the same numerals. -/
def decodeRData (atype rdlength : Nat) : Decoder RData :=
  if atype = 1 then
    dbind (rdNBytes rdlength) fun raw =>
      if raw.length ≠ 4 then dfail .invalidRData
      else dpure (.A raw)
  else if atype = 28 then
    dbind (rdNBytes rdlength) fun raw =>
      if raw.length ≠ 16 then dfail .invalidRData
      else dpure (.AAAA (segsOf raw))
  else if atype = 2 ∨ atype = 5 then
    dbind dgetIdx fun stat =>
    dbind rdStr fun name =>
    dbind dgetIdx fun cur =>
    if stat + rdlength < cur then dfail .invalidRData
    else
      dbind (skipTo (stat + rdlength)) fun _ =>
        dpure (if atype = 2 then .NS name else .CNAME name)
  else dpure .EMPTY

/-- `Dns::decode_questions`. -/
def decodeQuestions : Nat → Decoder (List QueryRecord)
  | 0 => dpure []
  | n + 1 =>
    dbind rdStr fun qname =>
    dbind rdU16 fun qtype =>
    dbind rdU16 fun qclass =>
    dbind (decodeQuestions n) fun rest =>
    dpure ({ qname, qtype, qclass } :: rest)

/-- `Dns::decode_answers`. -/
def decodeAnswers : Nat → Decoder (List AnswerRecord)
  | 0 => dpure []
  | n + 1 =>
    dbind rdStr fun aname =>
    dbind rdU16 fun atype =>
    dbind rdU16 fun aclass =>
    dbind rdU32 fun ttl =>
    dbind rdU16 fun length =>
    dbind (decodeRData atype length) fun rdata =>
    dbind (decodeAnswers n) fun rest =>
    dpure ({ aname, atype, aclass, ttl, length, rdata } :: rest)

/-- `Dns::decode` (src/dns.rs, lines 214-242), run from index 0; `none`
records divergence of the name reader. -/
def Dns.decode (d : List Nat) : Option (Except DnsError Dns) :=
  ((dbind rdU16 fun id =>
    dbind rdU16 fun flagsRaw =>
    dbind rdU16 fun qd =>
    dbind rdU16 fun an =>
    dbind rdU16 fun ns =>
    dbind rdU16 fun ar =>
    dbind (decodeQuestions qd) fun questions =>
    dbind (decodeAnswers an) fun answers =>
    dbind (decodeAnswers ns) fun authorities =>
    dbind (decodeAnswers ar) fun additionals =>
    dpure (Dns.mk
      (Header.mk id (decodeFlags flagsRaw) qd an ns ar)
      questions answers authorities additionals)) d 0).map
    (Except.map Prod.fst)

/-! ## Encoder (src/dns.rs `Dns::encode` and helpers) -/

/-- The bytes produced by `Dns::encode_rdata` into its scratch buffer.
For `NS`/`CNAME` the source calls `buf.write_str(name)` and ignores the
`Result`, so a failing write leaves the truncated bytes. -/
def rdataBytes : RData → List Nat
  | .A o => o
  | .AAAA segs => segs.foldl (fun b s => writeU16 b s) []
  | .NS n => (writeStr n []).2
  | .CNAME n => (writeStr n []).2
  | .EMPTY => []

/-- `Dns::encode_rdata`: every arm returns `Ok`. -/
def encodeRData (rd : RData) : Except DnsError (List Nat) := .ok (rdataBytes rd)

/-- `Dns::encode_answers` (src/dns.rs, lines 135-154): an OPT record
(type 41) gets a single zero name byte; otherwise the name is written
with `write_str`, whose `Result` is ignored; the rdata length written is
the length of the freshly encoded rdata. -/
def encodeAnswers (buf : List Nat) : List AnswerRecord → Except DnsError (List Nat)
  | [] => .ok buf
  | a :: rest =>
    let b1 := if a.atype = 41 then writeU8 buf 0 else (writeStr a.aname buf).2
    let b2 := writeU32 (writeU16 (writeU16 b1 a.atype) a.aclass) a.ttl
    match encodeRData a.rdata with
    | .error e => .error e
    | .ok raw => encodeAnswers (writeU16 b2 raw.length ++ raw) rest

/-- `Dns::encode` (src/dns.rs, lines 245-268): writes the header with
the *stored* counts, each question (the `write_str` `Result` ignored),
then the three record sections. -/
def Dns.encode (m : Dns) : Except DnsError (List Nat) :=
  let buf : List Nat := []
  let buf := writeU16 buf m.header.id
  let buf := writeU16 buf (encodeFlags m.header.flags)
  let buf := writeU16 buf m.header.qd_count
  let buf := writeU16 buf m.header.an_count
  let buf := writeU16 buf m.header.ns_count
  let buf := writeU16 buf m.header.ar_count
  let buf := m.questions.foldl
    (fun b q => writeU16 (writeU16 (writeStr q.qname b).2 q.qtype) q.qclass) buf
  match encodeAnswers buf m.answers with
  | .error e => .error e
  | .ok buf2 =>
    match encodeAnswers buf2 m.authorities with
    | .error e => .error e
    | .ok buf3 =>
      match encodeAnswers buf3 m.additionals with
      | .error e => .error e
      | .ok buf4 => .ok buf4

instance {ε α : Type} [DecidableEq ε] [DecidableEq α] : DecidableEq (Except ε α) :=
  fun x y =>
    match x, y with
    | .ok a, .ok b =>
      if h : a = b then .isTrue (by rw [h]) else .isFalse (by intro hh; cases hh; exact h rfl)
    | .error e, .error f =>
      if h : e = f then .isTrue (by rw [h]) else .isFalse (by intro hh; cases hh; exact h rfl)
    | .ok _, .error _ => .isFalse (fun h => Except.noConfusion h)
    | .error _, .ok _ => .isFalse (fun h => Except.noConfusion h)

/-! ## Iterative resolver (src/resolver.rs)

The network is external nondeterminism: an oracle maps the queried
domain and server address to the outcome of one exchange (building the
query, UDP round trip, decoding the response), absorbing the error paths
of `contact` and `Dns::decode`.  `resolve` is quantified over all
oracles, which covers every network behaviour.  The Rust server-address
strings are modelled by `Addr`; `Ipv4Addr::to_string` is an injective
rendering of the four octets, modelled by the octet list itself. -/

/-- Model of the Rust server-address string. -/
abbrev Addr := List Nat

/-- Modelled from the source: `Ipv4Addr::to_string()` renders the four
octets injectively; represented by the octets themselves. -/
def ipv4ToAddr (octets : List Nat) : Addr := octets

/-- The root server constant `"198.41.0.4"` of src/resolver.rs. -/
def rootAddr : Addr := [198, 41, 0, 4]

/-- One network exchange: `Dns::new_a_question` + `encode` + `contact`
+ `Dns::decode`, as a nondeterministic oracle. -/
abbrev Net := RStr → Addr → Except DnsError Dns

/-- `(ipv4s, ipv6s, cnames)` as returned by `resolve`. -/
abbrev ResolvedSet := List RData × List RData × List RData

/-- `inspect` (src/resolver.rs, lines 8-29): one pass over the answers,
collecting A rdata, AAAA rdata and CNAME rdata, in answer order; the
owner names of the records are not consulted. -/
def inspect : List AnswerRecord → ResolvedSet
  | [] => ([], [], [])
  | a :: rest =>
    let r := inspect rest
    match a.rdata with
    | .A o => (.A o :: r.1, r.2.1, r.2.2)
    | .AAAA s => (r.1, .AAAA s :: r.2.1, r.2.2)
    | .CNAME n => (r.1, r.2.1, .CNAME n :: r.2.2)
    | _ => r

/-- The glue loop of `resolve` (`for address in addresses`): try each
additional A address in order; a successful sub-resolution with
addresses, or its first CNAME chased at that same address, returns
early; failures and empty successes fall through.  `rec` is the
recursion at `depth - 1`. -/
def glueLoop (rec : RStr → Addr → Except DnsError ResolvedSet) (domain : RStr) :
    List (List Nat) → Option (Except DnsError ResolvedSet)
  | [] => none
  | ip :: rest =>
    match rec domain (ipv4ToAddr ip) with
    | .ok r =>
      if !r.1.isEmpty || !r.2.1.isEmpty then some (.ok r)
      else
        match r.2.2.head? with
        | some c => some (rec (c.asCname.getD []) (ipv4ToAddr ip))
        | none => glueLoop rec domain rest
    | .error _ => glueLoop rec domain rest

/-- The inner loop of the authority branch (`for ipv4 in
ipv4_addresses`): try each A rdata of the resolved name server; the
first successful sub-resolution for `domain` is returned as-is. -/
def nsAddrLoop (rec : RStr → Addr → Except DnsError ResolvedSet) (domain : RStr) :
    List RData → Option ResolvedSet
  | [] => none
  | r :: more =>
    match r with
    | .A ip =>
      match rec domain (ipv4ToAddr ip) with
      | .ok out => some out
      | .error _ => nsAddrLoop rec domain more
    | _ => nsAddrLoop rec domain more

/-- The authority loop of `resolve` (`for authority in authorities`):
resolve each NS name from the root server, then try each of its A
addresses for `domain`. -/
def nsLoop (rec : RStr → Addr → Except DnsError ResolvedSet) (domain : RStr) :
    List RStr → Option ResolvedSet
  | [] => none
  | authority :: rest =>
    match rec authority rootAddr with
    | .ok r =>
      match nsAddrLoop rec domain r.1 with
      | some out => some out
      | none => nsLoop rec domain rest
    | .error _ => nsLoop rec domain rest

/-- `resolve` (src/resolver.rs, lines 32-162).  Depth 0 fails before the
oracle is consulted; otherwise one exchange is inspected, answers with
addresses are returned, else the first CNAME is chased at the same
server, else glue addresses are tried, else authority names are resolved
from the root; if everything fails, `NoAnswer`.  (`cname.as_cname()
.unwrap()` cannot panic because `inspect` only stores CNAME rdata in the
third component; the model uses the same name with a default.) -/
def resolve (net : Net) : Nat → RStr → Addr → Except DnsError ResolvedSet
  | 0, _, _ => .error (.ioError "max recursion depth reached")
  | depth + 1, domain, address =>
    match net domain address with
    | .error e => .error e
    | .ok res =>
      let t := inspect res.answers
      if !t.1.isEmpty || !t.2.1.isEmpty then .ok t
      else
        match t.2.2.head? with
        | some c => resolve net depth (c.asCname.getD []) address
        | none =>
          let auths := res.authorities.filterMap fun auth =>
            if typeFromU16 auth.atype = some 2 then
              match auth.rdata with
              | .NS ns => some ns
              | _ => none
            else none
          let addrs := res.additionals.filterMap fun add =>
            if typeFromU16 add.atype = some 1 then
              match add.rdata with
              | .A ip => some ip
              | _ => none
            else none
          match glueLoop (fun dm ad => resolve net depth dm ad) domain addrs with
          | some out => out
          | none =>
            match nsLoop (fun dm ad => resolve net depth dm ad) domain auths with
            | some r => .ok r
            | none => .error (.ioError "no valid answer found")

/-! ## Byte images of the encoder

Closed forms for the bytes the encoder appends, used to state and prove
the encoding lemmas. -/

/-- Bytes appended for one question. -/
def qEnc (q : QueryRecord) : List Nat :=
  (writeStr q.qname []).2 ++ u16be q.qtype ++ u16be q.qclass

/-- Bytes appended for a question list. -/
def qsEnc : List QueryRecord → List Nat
  | [] => []
  | q :: rest => qEnc q ++ qsEnc rest

/-- Bytes appended for one record. -/
def recEnc (a : AnswerRecord) : List Nat :=
  (if a.atype = 41 then [0] else (writeStr a.aname []).2) ++
  u16be a.atype ++ u16be a.aclass ++ u32be a.ttl ++
  u16be (rdataBytes a.rdata).length ++ rdataBytes a.rdata

/-- Bytes appended for a record list. -/
def ansEnc : List AnswerRecord → List Nat
  | [] => []
  | a :: rest => recEnc a ++ ansEnc rest

/-- The 12 header bytes written by `Dns::encode` (stored counts). -/
def hdrEnc (h : Header) : List Nat :=
  u16be h.id ++ u16be (encodeFlags h.flags) ++ u16be h.qd_count ++
  u16be h.an_count ++ u16be h.ns_count ++ u16be h.ar_count

/-- The whole byte image of `Dns::encode`. -/
def msgEnc (m : Dns) : List Nat :=
  hdrEnc m.header ++ qsEnc m.questions ++ ansEnc m.answers ++
  ansEnc m.authorities ++ ansEnc m.additionals

/-! ## Well-formedness for the conditioned round trip -/

/-- A name that survives the dot-join representation and the label
limits: all labels non-empty, at most 63 bytes, valid UTF-8. -/
def wfName (s : RStr) : Bool :=
  (splitOnDot s).all fun l => l.length != 0 && l.length ≤ 63 && validUtf8 l

def wfFlags (f : Flags) : Bool :=
  f.opcode < 16 && f.z < 8 && f.rcode < 16

def wfQuestion (q : QueryRecord) : Bool :=
  wfName q.qname && q.qtype < 65536 && q.qclass < 65536

/-- Consistency of a record type code with its rdata variant, plus the
value bounds needed for the wire format. -/
def wfRData (atype : Nat) : RData → Bool
  | .A o => atype == 1 && o.length == 4 && o.all (· < 256)
  | .AAAA segs => atype == 28 && segs.length == 8 && segs.all (· < 65536)
  | .NS n => atype == 2 && wfName n && (nameEnc n).length < 65536
  | .CNAME n => atype == 5 && wfName n && (nameEnc n).length < 65536
  | .EMPTY => atype != 1 && atype != 28 && atype != 2 && atype != 5

def wfRecord (a : AnswerRecord) : Bool :=
  (if a.atype == 41 then a.aname == ([46] : List Nat) else wfName a.aname) &&
  a.atype < 65536 && a.aclass < 65536 && a.ttl < 4294967296 &&
  wfRData a.atype a.rdata

/-- Well-formed message: counts equal the vector lengths and fit in 16
bits, flag fields are in range, every name is well-formed and every
record is consistent. -/
def wfDns (m : Dns) : Bool :=
  m.header.id < 65536 && wfFlags m.header.flags &&
  m.header.qd_count == m.questions.length &&
  m.header.an_count == m.answers.length &&
  m.header.ns_count == m.authorities.length &&
  m.header.ar_count == m.additionals.length &&
  m.questions.length < 65536 && m.answers.length < 65536 &&
  m.authorities.length < 65536 && m.additionals.length < 65536 &&
  m.questions.all wfQuestion && m.answers.all wfRecord &&
  m.authorities.all wfRecord && m.additionals.all wfRecord

/-- What decoding an encoded record reconstructs: identical except that
the stored `length` field is replaced by the length of the freshly
encoded rdata (the encoder writes that length, not the stored one). -/
def normRecord (a : AnswerRecord) : AnswerRecord :=
  { a with length := (rdataBytes a.rdata).length }

/-- The round-trip image of a message: all fields reproduced, record
`length` fields replaced by the encoded rdata lengths. -/
def normDns (m : Dns) : Dns :=
  { m with
    answers := m.answers.map normRecord
    authorities := m.authorities.map normRecord
    additionals := m.additionals.map normRecord }

/-! ## Reads-what-was-written predicates -/

/-- `e` occupies positions `i ..< i + e.length` of `d`. -/
def SegAt (d : List Nat) (i : Nat) (e : List Nat) : Prop :=
  ∃ pre post, d = pre ++ (e ++ post) ∧ i = pre.length

/-- The decoding step `p`, run anywhere its encoding `e` sits in the
message, succeeds with value `v` and consumes exactly `e`. -/
def DReads {α : Type} (e : List Nat) (p : Decoder α) (v : α) : Prop :=
  ∀ d i, SegAt d i e → p d i = some (.ok (v, i + e.length))

/-! ## Concrete inputs for the claims -/

def zeroFlags : Flags :=
  { qr := false, opcode := 0, aa := false, tc := false, rd := false,
    ra := false, z := 0, rcode := 0 }

/-- Scenario S3 of the spec: a 16-byte buffer whose offset 12 holds a
compression pointer targeting offset 12 itself. -/
def s3buf : List Nat := [0, 0, 0, 0, 0, 0, 0, 0, 0, 0, 0, 0, 192, 12, 0, 0]

/-- A buffer starting with length octet 64 (`01` high bits), then a
64-byte label and a terminator. -/
def d64buf : List Nat := 64 :: (List.replicate 64 97 ++ [0])

/-- A 64-byte label: over the 63-byte limit. -/
def longLabel : RStr := List.replicate 64 97

/-- Message whose stored `qd_count` is 7 although it has no questions. -/
def c3msg : Dns :=
  { header := { id := 0, flags := zeroFlags, qd_count := 7, an_count := 0,
                ns_count := 0, ar_count := 0 },
    questions := [], answers := [], authorities := [], additionals := [] }

/-- Message with a single question whose name has a label of 64 bytes. -/
def c10msg : Dns :=
  { header := { id := 1, flags := zeroFlags, qd_count := 1, an_count := 0,
                ns_count := 0, ar_count := 0 },
    questions := [{ qname := longLabel, qtype := 1, qclass := 1 }],
    answers := [], authorities := [], additionals := [] }

/-- Message with one question whose qname is the empty string: its
labels are within every limit, yet `write_str` emits two zero bytes for
it and the decoder reads only one of them back. -/
def c2msg : Dns :=
  { header := { id := 1, flags := zeroFlags, qd_count := 1, an_count := 0,
                ns_count := 0, ar_count := 0 },
    questions := [{ qname := [], qtype := 1, qclass := 1 }],
    answers := [], authorities := [], additionals := [] }

/-- What the decoder actually returns on `c2msg`'s encoding. -/
def c2msgDecoded : Dns :=
  { header := { id := 1, flags := zeroFlags, qd_count := 1, an_count := 0,
                ns_count := 0, ar_count := 0 },
    questions := [{ qname := [46], qtype := 0, qclass := 256 }],
    answers := [], authorities := [], additionals := [] }

/-- An answer record whose owner name (`"other"`) differs from every
query name used with it. -/
def c5answers : List AnswerRecord :=
  [{ aname := [111, 116, 104, 101, 114], atype := 1, aclass := 1, ttl := 0,
     length := 4, rdata := .A [1, 2, 3, 4] }]

/-- An oracle answering every query with the `c5answers` answer section. -/
def c5net : Net := fun _ _ =>
  .ok { header := { id := 0, flags := zeroFlags, qd_count := 0, an_count := 1,
                    ns_count := 0, ar_count := 0 },
        questions := [], answers := c5answers, authorities := [],
        additionals := [] }

/-- The query name (`"ex"`) used against `c5net`; it matches no answer
record owner name, case-insensitively or otherwise. -/
def c5qname : RStr := [101, 120]

/-- An oracle answering every query with one A answer. -/
def c8net : Net := fun _ _ =>
  .ok { header := { id := 0, flags := zeroFlags, qd_count := 0, an_count := 1,
                    ns_count := 0, ar_count := 0 },
        questions := [],
        answers := [{ aname := [], atype := 1, aclass := 1, ttl := 0,
                      length := 4, rdata := .A [9, 9, 9, 9] }],
        authorities := [], additionals := [] }

/-- Round-trip witness message: S1 of the spec
(`id = 1`, `rd`, one A/IN question for `"www.example.com"`). -/
def s1msg : Dns :=
  { header := { id := 1,
                flags := { qr := false, opcode := 0, aa := false, tc := false,
                           rd := true, ra := false, z := 0, rcode := 0 },
                qd_count := 1, an_count := 0, ns_count := 0, ar_count := 0 },
    questions := [{ qname := [119, 119, 119, 46, 101, 120, 97, 109, 112, 108,
                              101, 46, 99, 111, 109],
                    qtype := 1, qclass := 1 }],
    answers := [], authorities := [], additionals := [] }

/-! ## Basic lemmas -/

theorem splitOnDot_ne_nil (s : RStr) : splitOnDot s ≠ [] := by
  induction s with
  | nil => simp [splitOnDot]
  | cons b rest ih =>
    simp only [splitOnDot]
    split
    · simp
    · cases h : splitOnDot rest with
      | nil => simp
      | cons l ls => simp

theorem joinDots_nil : joinDots [] = [] := rfl

theorem joinDots_single (l : RStr) : joinDots [l] = l := by
  simp [joinDots, List.intercalate]

theorem joinDots_cons₂ (x y : RStr) (zs : List RStr) :
    joinDots (x :: y :: zs) = x ++ 46 :: joinDots (y :: zs) := by
  simp [joinDots, List.intercalate, List.intersperse]

/-- Splitting and re-joining at dots is the identity on byte strings. -/
theorem joinDots_splitOnDot (s : RStr) : joinDots (splitOnDot s) = s := by
  induction s with
  | nil => simp [splitOnDot, joinDots, List.intercalate]
  | cons b rest ih =>
    by_cases hb : b = 46
    · subst hb
      have hsplit : splitOnDot (46 :: rest) = [] :: splitOnDot rest := by
        simp [splitOnDot]
      rw [hsplit]
      cases h : splitOnDot rest with
      | nil => exact absurd h (splitOnDot_ne_nil rest)
      | cons l ls =>
        rw [h] at ih
        rw [joinDots_cons₂, ih]
        simp
    · have hsplit : splitOnDot (b :: rest) =
          match splitOnDot rest with
          | l :: ls => (b :: l) :: ls
          | [] => [[b]] := by
        simp [splitOnDot, hb]
      rw [hsplit]
      cases h : splitOnDot rest with
      | nil => exact absurd h (splitOnDot_ne_nil rest)
      | cons l ls =>
        rw [h] at ih
        cases ls with
        | nil =>
          rw [joinDots_single] at ih
          simp only [joinDots_single]
          simp [ih]
        | cons y ys =>
          rw [joinDots_cons₂] at ih ⊢
          simp only [List.cons_append, ih]

theorem labelsEnc_eq (ls : List RStr) :
    labelsEnc ls = labelsEncNoTerm ls ++ [0] := rfl

theorem labelsEncNoTerm_cons (l : RStr) (ls : List RStr) :
    labelsEncNoTerm (l :: ls) = (l.length :: l) ++ labelsEncNoTerm ls := rfl

theorem length_lt_labelsEnc_length (ls : List RStr) :
    ls.length < (labelsEnc ls).length := by
  induction ls with
  | nil => simp [labelsEnc, labelsEncNoTerm]
  | cons l ls ih =>
    have h : (labelsEnc (l :: ls)).length =
        l.length + 1 + (labelsEnc ls).length := by
      simp [labelsEnc, labelsEncNoTerm_cons]
      omega
    simp only [List.length_cons]
    omega

/-- `write_labels` on labels that are all short appends exactly the
label blocks and the terminator and succeeds. -/
theorem writeLabels_ok (ls : List RStr) (buf : List Nat)
    (h : ∀ l ∈ ls, l.length ≤ 63) :
    writeLabels ls buf = (.ok (), buf ++ labelsEnc ls) := by
  induction ls generalizing buf with
  | nil => simp [writeLabels, labelsEnc, labelsEncNoTerm]
  | cons l ls ih =>
    have hl : l.length ≤ 63 := h l (by simp)
    have hls : ∀ x ∈ ls, x.length ≤ 63 := fun x hx => h x (by simp [hx])
    simp only [writeLabels, if_neg (by omega : ¬ 63 < l.length)]
    rw [ih _ hls]
    have : l.length % 256 = l.length := Nat.mod_eq_of_lt (by omega)
    simp [labelsEnc, labelsEncNoTerm_cons, writeU8, this]

/-- `write_labels` aborts at the first over-long label, leaving exactly
the blocks of the preceding labels in the buffer (no terminator). -/
theorem writeLabels_err (pre : List RStr) (l : RStr) (post : List RStr)
    (buf : List Nat) (hpre : ∀ x ∈ pre, x.length ≤ 63) (hl : 63 < l.length) :
    writeLabels (pre ++ l :: post) buf =
      (.error .labelTooLong, buf ++ labelsEncNoTerm pre) := by
  induction pre generalizing buf with
  | nil => simp [writeLabels, if_pos hl, labelsEncNoTerm]
  | cons x pre ih =>
    have hx : x.length ≤ 63 := hpre x (by simp)
    have hpre' : ∀ y ∈ pre, y.length ≤ 63 := fun y hy => hpre y (by simp [hy])
    have step : writeLabels ((x :: pre) ++ l :: post) buf =
        writeLabels (pre ++ l :: post) (writeU8 buf (x.length % 256) ++ x) := by
      simp [writeLabels, if_neg (by omega : ¬ 63 < x.length)]
    rw [step, ih _ hpre']
    have hm : x.length % 256 = x.length := Nat.mod_eq_of_lt (by omega)
    simp [labelsEncNoTerm_cons, writeU8, hm]

/-! ## Writer emission lemmas -/

/-- `write_labels` only appends: its result and appended bytes do not
depend on the buffer contents. -/
theorem writeLabels_shift (ls : List RStr) (buf : List Nat) :
    writeLabels ls buf = ((writeLabels ls []).1, buf ++ (writeLabels ls []).2) := by
  induction ls generalizing buf with
  | nil => simp [writeLabels]
  | cons l ls ih =>
    by_cases h : 63 < l.length
    · simp [writeLabels, h]
    · simp only [writeLabels, if_neg h]
      rw [ih (writeU8 buf (l.length % 256) ++ l), ih (writeU8 [] (l.length % 256) ++ l)]
      simp [writeU8]

theorem writeStr_shift (name : RStr) (buf : List Nat) :
    writeStr name buf = ((writeStr name []).1, buf ++ (writeStr name []).2) :=
  writeLabels_shift (splitOnDot name) buf

/-- `encode_answers` never fails and appends exactly the record bytes. -/
theorem encodeAnswers_ok (rs : List AnswerRecord) (buf : List Nat) :
    encodeAnswers buf rs = .ok (buf ++ ansEnc rs) := by
  induction rs generalizing buf with
  | nil => simp [encodeAnswers, ansEnc]
  | cons a rest ih =>
    have hb1 : (if a.atype = 41 then writeU8 buf 0 else (writeStr a.aname buf).2) =
        buf ++ (if a.atype = 41 then [0] else (writeStr a.aname []).2) := by
      by_cases h : a.atype = 41
      · simp [h, writeU8]
      · simp [h, writeStr_shift a.aname buf]
    simp only [encodeAnswers, encodeRData]
    rw [hb1, ih]
    simp [ansEnc, recEnc, writeU16, writeU32, List.append_assoc]

/-- The question loop of `Dns::encode` appends exactly the question
bytes. -/
theorem questionsFold_eq (qs : List QueryRecord) (buf : List Nat) :
    qs.foldl
      (fun b q => writeU16 (writeU16 (writeStr q.qname b).2 q.qtype) q.qclass)
      buf = buf ++ qsEnc qs := by
  induction qs generalizing buf with
  | nil => simp [qsEnc]
  | cons q rest ih =>
    simp only [List.foldl_cons]
    rw [show writeU16 (writeU16 (writeStr q.qname buf).2 q.qtype) q.qclass =
        buf ++ qEnc q by
      rw [writeStr_shift q.qname buf]
      simp [qEnc, writeU16, List.append_assoc]]
    rw [ih]
    simp [qsEnc, List.append_assoc]

/-- `Dns::encode` always succeeds, producing the byte image `msgEnc`. -/
theorem encode_eq (m : Dns) : Dns.encode m = .ok (msgEnc m) := by
  simp only [Dns.encode, questionsFold_eq, encodeAnswers_ok]
  simp [msgEnc, hdrEnc, writeU16, List.append_assoc]

/-! ## Bit-pattern facts for length octets -/

set_option maxRecDepth 4096 in
theorem land192_iff : ∀ L, L < 256 → ((L &&& 192 = 192) ↔ 192 ≤ L) := by decide

set_option maxRecDepth 4096 in
theorem land192_small : ∀ L, L < 64 → L &&& 192 = 0 := by decide

/-! ## Claim C9 -/

/-- C9: `resolve` with depth 0 fails with the depth-exhaustion error
(`IOError "max recursion depth reached"`, the semantic `DepthExceeded`)
for every oracle, every domain and every server address; since the
equation holds uniformly in the oracle, the network is never consulted. -/
theorem c9_depth_zero (net : Net) (domain : RStr) (address : Addr) :
    resolve net 0 domain address =
      .error (.ioError "max recursion depth reached") := rfl

/-! ## Claim C5 -/

/-- C5 counterexample: the resolver returns the A rdata of an answer
record whose owner name (`"other"`) differs from the queried name
(`"ex"`), so records with non-matching owner names are not excluded. -/
theorem c5_name_mismatch_cex :
    resolve c5net 1 c5qname rootAddr = .ok ([.A [1, 2, 3, 4]], [], []) ∧
    ∀ a ∈ c5answers, a.aname ≠ c5qname := by decide

/-- C5 amended: `inspect` collects the A, AAAA and CNAME rdata of every
answer record, in order, purely by rdata variant; the owner names of the
records (and the queried name) play no role. -/
theorem c5_inspect_collects_all (answers : List AnswerRecord) :
    inspect answers =
      (answers.filterMap fun a =>
        match a.rdata with | .A o => some (RData.A o) | _ => none,
       answers.filterMap fun a =>
        match a.rdata with | .AAAA s => some (RData.AAAA s) | _ => none,
       answers.filterMap fun a =>
        match a.rdata with | .CNAME n => some (RData.CNAME n) | _ => none) := by
  induction answers with
  | nil => rfl
  | cons a rest ih =>
    cases h : a.rdata <;> simp [inspect, List.filterMap_cons, h, ih]

/-! ## Claim C4 -/

/-- C4 counterexample: decoding rdata of type 16 (not A/AAAA/NS/CNAME)
with rdlength 5 consumes no bytes: the cursor stays at 0 instead of
moving to 5. -/
theorem c4_opaque_cex :
    decodeRData 16 5 [1, 2, 3, 4, 5] 0 = some (.ok (.EMPTY, 0)) ∧
    (0 : Nat) ≠ 0 + 5 := by decide

/-- C4 amended: for every type other than A (1), AAAA (28), NS (2) and
CNAME (5), `decode_rdata` returns `EMPTY` and reads zero bytes, leaving
the cursor exactly where it was (after the rdlength field), regardless
of the rdlength. -/
theorem c4_opaque_reads_nothing (d : List Nat) (atype rdlength i : Nat)
    (h1 : atype ≠ 1) (h2 : atype ≠ 28) (h3 : atype ≠ 2) (h4 : atype ≠ 5) :
    decodeRData atype rdlength d i = some (.ok (.EMPTY, i)) := by
  simp [decodeRData, h1, h2, h3, h4, dpure]

/-- Witness for C4 at type 41 (OPT) and rdlength 7. -/
theorem c4_witness :
    decodeRData 41 7 [1, 2, 3, 4, 5, 6, 7, 8] 3 = some (.ok (.EMPTY, 3)) :=
  c4_opaque_reads_nothing [1, 2, 3, 4, 5, 6, 7, 8] 41 7 3
    (by decide) (by decide) (by decide) (by decide)

/-! ## Claim C3 -/

/-- C3 counterexample: a message with stored `qd_count = 7` and no
questions encodes with count bytes `0, 7`, not the vector length 0. -/
theorem c3_stored_counts_cex :
    Dns.encode c3msg = .ok [0, 0, 0, 0, 0, 7, 0, 0, 0, 0, 0, 0] ∧
    c3msg.questions.length = 0 ∧ (7 : Nat) ≠ 0 := by decide

/-- C3 amended: the encoder writes the four count fields from the
*stored* header counts (as 16-bit big-endian), not from the vector
lengths. -/
theorem c3_counts_are_stored (m : Dns) :
    ∃ rest, Dns.encode m = .ok
      (u16be m.header.id ++ u16be (encodeFlags m.header.flags) ++
       u16be m.header.qd_count ++ u16be m.header.an_count ++
       u16be m.header.ns_count ++ u16be m.header.ar_count ++ rest) := by
  refine ⟨qsEnc m.questions ++ ansEnc m.answers ++ ansEnc m.authorities ++
    ansEnc m.additionals, ?_⟩
  rw [encode_eq]
  simp [msgEnc, hdrEnc, List.append_assoc]

/-! ## Claim C6 -/

/-- C6 counterexample: `write_str` on the empty name appends two zero
bytes (one for the empty label produced by the split, one terminator),
not the single byte the claim states. -/
theorem c6_empty_name_cex :
    (writeStr [] []).2 = [0, 0] ∧ (writeStr [] []).2 ≠ [0] := by decide

/-- C6 amended: `write_str` splits on `.` and writes *every* label of
the split (empty labels included) preceded by its length byte, then a
terminating zero, failing with `LabelTooLong` at the first label longer
than 63 bytes (leaving the preceding label blocks, without terminator).
In particular `""` appends the two bytes `0, 0` and `"."` the three
bytes `0, 0, 0`. -/
theorem c6_write_str (name : RStr) (buf : List Nat) :
    ((∀ l ∈ splitOnDot name, l.length ≤ 63) →
      writeStr name buf = (.ok (), buf ++ nameEnc name)) ∧
    (∀ pre l post, splitOnDot name = pre ++ l :: post →
      (∀ x ∈ pre, x.length ≤ 63) → 63 < l.length →
      writeStr name buf = (.error .labelTooLong, buf ++ labelsEncNoTerm pre)) ∧
    (writeStr [] []).2 = [0, 0] ∧ (writeStr [46] []).2 = [0, 0, 0] := by
  refine ⟨fun h => writeLabels_ok _ _ h, fun pre l post hsplit hpre hl => ?_,
    by decide, by decide⟩
  rw [writeStr, hsplit]
  exact writeLabels_err pre l post buf hpre hl

/-- Witness for C6: a one-label name and a too-long name. -/
theorem c6_witness :
    writeStr [97] [] = (.ok (), [1, 97, 0]) ∧
    writeStr longLabel [] = (.error .labelTooLong, []) := by
  constructor
  · exact (c6_write_str [97] []).1 (by decide)
  · exact (c6_write_str longLabel []).2.1 [] longLabel [] (by decide)
      (by decide) (by decide)

/-! ## Claim C7 -/

/-- C7 counterexample: at position 0 of `d64buf` the decoder reads the
length octet 64 (high bits `01`) and succeeds with a 64-byte label; it
does not fail with `InvalidName`. -/
theorem c7_reserved_bits_cex :
    d64buf.get? 0 = some 64 ∧
    readStrP d64buf 0 = some (.ok (List.replicate 64 97, 66)) ∧
    readStrP d64buf 0 ≠ some (.error .invalidString) := by decide

/-- C7 amended: a length octet in `64 ..= 191` is treated as an ordinary
label length: the reader takes the label branch (reading that many bytes,
failing only with `EndOfBuffer` or, on invalid UTF-8, `InvalidName`); it
is neither treated as a pointer nor rejected outright. -/
theorem c7_reserved_treated_as_label (d : List Nat) (fuel i jumpIdx : Nat)
    (acc : List RStr) (jumped : Bool) (L : Nat)
    (hL : d.get? i = some L) (h64 : 64 ≤ L) (h191 : L ≤ 191) :
    readNameLoop d (fuel + 1) i acc jumped jumpIdx =
      match sliceGet d (i + 1) (i + 1 + L) with
      | none => some (.error .endOfBuffer)
      | some labelBytes =>
        match fromUtf8 labelBytes with
        | none => some (.error .invalidString)
        | some label =>
          readNameLoop d fuel (i + 1 + L) (acc ++ [label]) jumped jumpIdx := by
  have hland : ¬ (L &&& 192 = 192) := by
    intro hc
    exact absurd ((land192_iff L (by omega)).mp hc) (by omega)
  have hz : ¬ (L = 0) := by omega
  have hL' : d[i]? = some L := by simpa [List.get?_eq_getElem?] using hL
  simp [readNameLoop, hL', hland, hz]

/-- Witness for C7 at the concrete buffer `d64buf`. -/
theorem c7_witness :
    readNameLoop d64buf 2 0 [] false 0 =
      match sliceGet d64buf (0 + 1) (0 + 1 + 64) with
      | none => some (.error .endOfBuffer)
      | some labelBytes =>
        match fromUtf8 labelBytes with
        | none => some (.error .invalidString)
        | some label =>
          readNameLoop d64buf 1 (0 + 1 + 64) ([] ++ [label]) false 0 :=
  c7_reserved_treated_as_label d64buf 1 0 0 [] false 64
    (by decide) (by decide) (by decide)

/-! ## Claim C1 -/

/-- C1: on scenario S3 (a compression pointer at offset 12 targeting
offset 12), the name reader diverges: for every recursion budget the
fuelled embedding of `read_name_at` runs out of fuel, so the source
recursion never returns — in particular it does not fail with
`InvalidName` as the specification requires.  The second conjunct
instantiates this at the fuel used by the `read_str` embedding. -/
theorem c1_pointer_loop_diverges :
    (∀ fuel, readNameAtF fuel s3buf 12 = none) ∧ readStrP s3buf 12 = none := by
  have main : ∀ fuel, readNameLoop s3buf fuel 12 [] false 0 = none := by
    intro fuel
    induction fuel with
    | zero => rfl
    | succ f ih =>
      have step : readNameLoop s3buf (f + 1) 12 [] false 0 =
          match readNameLoop s3buf f 12 [] false 0 with
          | none => none
          | some (.error e) => some (.error e)
          | some (.ok (name, _)) =>
            some (.ok
              (if (([] : List RStr) ++ [name]).isEmpty then [46]
               else joinDots (([] : List RStr) ++ [name]), 14)) := rfl
      rw [step, ih]
  exact ⟨fun fuel => main fuel, main 17⟩

/-! ## Claim C10 -/

/-- C10: `Dns::encode` returns `Ok` on every message (first conjunct);
the `Result` of `write_str` is ignored, so a name with an over-long
label is emitted truncated — exactly the label blocks before the
offending label, with no terminating zero byte (second conjunct); the
third conjunct shows it end to end: encoding a message whose question
name is a single 64-byte label yields `Ok` with no name bytes at all
between the header and the question type. -/
theorem c10_encode_never_fails :
    (∀ m : Dns, ∃ B, Dns.encode m = .ok B) ∧
    (∀ name buf pre l post, splitOnDot name = pre ++ l :: post →
      (∀ x ∈ pre, x.length ≤ 63) → 63 < l.length →
      writeStr name buf = (.error .labelTooLong, buf ++ labelsEncNoTerm pre)) ∧
    Dns.encode c10msg =
      .ok [0, 1, 0, 0, 0, 1, 0, 0, 0, 0, 0, 0, 0, 1, 0, 1] := by
  refine ⟨fun m => ⟨msgEnc m, encode_eq m⟩,
    fun name buf pre l post hsplit hpre hl => ?_, by decide⟩
  rw [writeStr, hsplit]
  exact writeLabels_err pre l post buf hpre hl

/-- Witness for C10: the second conjunct applied to the 64-byte label
name, and the first to `c10msg`. -/
theorem c10_witness :
    (∃ B, Dns.encode c10msg = .ok B) ∧
    writeStr longLabel [] = (.error .labelTooLong, []) := by
  refine ⟨c10_encode_never_fails.1 c10msg, ?_⟩
  exact c10_encode_never_fails.2.1 longLabel [] [] longLabel []
    (by decide) (by decide) (by decide)

/-! ## Flags packing round trip -/


theorem and_mask_window (x w s : Nat) :
    x &&& (2 ^ w - 1) <<< s = x % 2 ^ (s + w) / 2 ^ s * 2 ^ s := by
  apply Nat.eq_of_testBit_eq
  intro j
  rw [show x % 2 ^ (s + w) / 2 ^ s * 2 ^ s = (x % 2 ^ (s + w) / 2 ^ s) <<< s by
    rw [Nat.shiftLeft_eq]]
  rw [show x % 2 ^ (s + w) / 2 ^ s = (x % 2 ^ (s + w)) >>> s by
    rw [Nat.shiftRight_eq_div_pow]]
  simp only [Nat.testBit_and, Nat.testBit_shiftLeft, Nat.testBit_shiftRight,
    Nat.testBit_two_pow_sub_one, Nat.testBit_mod_two_pow]
  by_cases hjs : s ≤ j
  · have hj : s + (j - s) = j := by omega
    by_cases hw : j - s < w
    · simp [hjs, hj, hw, show j < s + w by omega]
    · simp [hjs, hj, hw, show ¬ (j < s + w) by omega]
  · simp [show ¬ (j ≥ s) by omega]

theorem or_as_add (i a b : Nat) (h : b < 2 ^ i) : a * 2 ^ i ||| b = a * 2 ^ i + b := by
  rw [Nat.mul_comm a (2 ^ i)]
  exact (Nat.mul_add_lt_is_or h a).symm

theorem b2n_le_one (b : Bool) : b2n b ≤ 1 := by cases b <;> simp [b2n]

theorem encodeFlags_eq (f : Flags) (hop : f.opcode < 16) (hz : f.z < 8)
    (hrc : f.rcode < 16) :
    encodeFlags f = b2n f.qr * 32768 + f.opcode * 2048 + b2n f.aa * 1024 +
      b2n f.tc * 512 + b2n f.rd * 256 + b2n f.ra * 128 + f.z * 16 + f.rcode := by
  have hqr := b2n_le_one f.qr
  have haa := b2n_le_one f.aa
  have htc := b2n_le_one f.tc
  have hrd := b2n_le_one f.rd
  have hra := b2n_le_one f.ra
  unfold encodeFlags
  simp only [Nat.shiftLeft_eq]
  rw [Nat.mod_eq_of_lt (by norm_num; omega : f.opcode * 2 ^ 11 < 65536)]
  simp only [Nat.or_assoc]
  rw [or_as_add 4 f.z f.rcode (by norm_num; omega)]
  rw [or_as_add 7 (b2n f.ra) _ (by norm_num; omega)]
  rw [or_as_add 8 (b2n f.rd) _ (by norm_num; omega)]
  rw [or_as_add 9 (b2n f.tc) _ (by norm_num; omega)]
  rw [or_as_add 10 (b2n f.aa) _ (by norm_num; omega)]
  rw [or_as_add 11 f.opcode _ (by norm_num; omega)]
  rw [or_as_add 15 (b2n f.qr) _ (by norm_num; omega)]
  norm_num
  omega

theorem encodeFlags_lt (f : Flags) (hop : f.opcode < 16) (hz : f.z < 8)
    (hrc : f.rcode < 16) : encodeFlags f < 65536 := by
  rw [encodeFlags_eq f hop hz hrc]
  have hqr := b2n_le_one f.qr
  have haa := b2n_le_one f.aa
  have htc := b2n_le_one f.tc
  have hrd := b2n_le_one f.rd
  have hra := b2n_le_one f.ra
  omega

theorem decode_encode_flags (f : Flags) (hop : f.opcode < 16) (hz : f.z < 8)
    (hrc : f.rcode < 16) : decodeFlags (encodeFlags f) = f := by
  obtain ⟨qr, op, aa, tc, rd, ra, z, rc⟩ := f
  simp only at hop hz hrc
  rw [encodeFlags_eq _ hop hz hrc]
  have hnq := b2n_le_one qr
  have hna := b2n_le_one aa
  have hnt := b2n_le_one tc
  have hnr := b2n_le_one rd
  have hnra := b2n_le_one ra
  obtain ⟨e, he⟩ : ∃ e : Nat, e = b2n qr * 32768 + op * 2048 + b2n aa * 1024 +
      b2n tc * 512 + b2n rd * 256 + b2n ra * 128 + z * 16 + rc := ⟨_, rfl⟩
  rw [← he]
  have m15 : e &&& 32768 = e % 65536 / 32768 * 32768 := by
    have := and_mask_window e 1 15; norm_num at this; exact this
  have mop : e &&& 30720 = e % 32768 / 2048 * 2048 := by
    have := and_mask_window e 4 11; norm_num at this; exact this
  have maa : e &&& 1024 = e % 2048 / 1024 * 1024 := by
    have := and_mask_window e 1 10; norm_num at this; exact this
  have mtc : e &&& 512 = e % 1024 / 512 * 512 := by
    have := and_mask_window e 1 9; norm_num at this; exact this
  have mrd : e &&& 256 = e % 512 / 256 * 256 := by
    have := and_mask_window e 1 8; norm_num at this; exact this
  have mra : e &&& 128 = e % 256 / 128 * 128 := by
    have := and_mask_window e 1 7; norm_num at this; exact this
  have mz : e &&& 112 = e % 128 / 16 * 16 := by
    have := and_mask_window e 3 4; norm_num at this; exact this
  have mrc : e &&& 15 = e % 16 := by
    have := and_mask_window e 4 0; norm_num at this; exact this
  unfold decodeFlags
  simp only [m15, mop, maa, mtc, mrd, mra, mz, mrc, Nat.shiftRight_eq_div_pow]
  clear m15 mop maa mtc mrd mra mz mrc
  rw [Flags.mk.injEq]
  refine ⟨?_, ?_, ?_, ?_, ?_, ?_, ?_, ?_⟩
  · cases qr
    · rw [show b2n false = 0 from rfl] at he
      simp only [bne_eq_false_iff_eq]
      omega
    · rw [show b2n true = 1 from rfl] at he
      simp only [bne_iff_ne]
      omega
  · omega
  · cases aa
    · rw [show b2n false = 0 from rfl] at he
      simp only [bne_eq_false_iff_eq]
      omega
    · rw [show b2n true = 1 from rfl] at he
      simp only [bne_iff_ne]
      omega
  · cases tc
    · rw [show b2n false = 0 from rfl] at he
      simp only [bne_eq_false_iff_eq]
      omega
    · rw [show b2n true = 1 from rfl] at he
      simp only [bne_iff_ne]
      omega
  · cases rd
    · rw [show b2n false = 0 from rfl] at he
      simp only [bne_eq_false_iff_eq]
      omega
    · rw [show b2n true = 1 from rfl] at he
      simp only [bne_iff_ne]
      omega
  · cases ra
    · rw [show b2n false = 0 from rfl] at he
      simp only [bne_eq_false_iff_eq]
      omega
    · rw [show b2n true = 1 from rfl] at he
      simp only [bne_iff_ne]
      omega
  · omega
  · omega

/-! ## Claim C8 -/

/-- If every `Ok` of `rec` carries addresses, so does every `Ok`
returned early by the glue loop. -/
theorem glueLoop_ok_nonempty (rec : RStr → Addr → Except DnsError ResolvedSet)
    (hrec : ∀ dm ad r, rec dm ad = .ok r → r.1 ≠ [] ∨ r.2.1 ≠ [])
    (domain : RStr) (addrs : List (List Nat)) (r : ResolvedSet)
    (h : glueLoop rec domain addrs = some (.ok r)) : r.1 ≠ [] ∨ r.2.1 ≠ [] := by
  induction addrs with
  | nil => simp [glueLoop] at h
  | cons ip rest ih =>
    simp only [glueLoop] at h
    split at h
    · split at h
      · rename_i t heq hcond
        injection h with h1
        injection h1 with h2
        subst h2
        simpa [List.isEmpty_iff] using hcond
      · split at h
        · rename_i h1
          injection h with h2
          exact hrec _ _ _ h2
        · exact ih h
    · exact ih h

/-- Every early return of the inner address loop is an `Ok` payload of
`rec`. -/
theorem nsAddrLoop_ok_nonempty (rec : RStr → Addr → Except DnsError ResolvedSet)
    (hrec : ∀ dm ad r, rec dm ad = .ok r → r.1 ≠ [] ∨ r.2.1 ≠ [])
    (domain : RStr) (l : List RData) (out : ResolvedSet)
    (h : nsAddrLoop rec domain l = some out) : out.1 ≠ [] ∨ out.2.1 ≠ [] := by
  induction l with
  | nil => simp [nsAddrLoop] at h
  | cons r more ih =>
    cases r with
    | A ip =>
      simp only [nsAddrLoop] at h
      split at h
      · rename_i o heq
        injection h with h1
        subst h1
        exact hrec _ _ _ heq
      · exact ih h
    | AAAA s => simp only [nsAddrLoop] at h; exact ih h
    | NS n => simp only [nsAddrLoop] at h; exact ih h
    | CNAME n => simp only [nsAddrLoop] at h; exact ih h
    | EMPTY => simp only [nsAddrLoop] at h; exact ih h

/-- Every early return of the authority loop carries addresses. -/
theorem nsLoop_ok_nonempty (rec : RStr → Addr → Except DnsError ResolvedSet)
    (hrec : ∀ dm ad r, rec dm ad = .ok r → r.1 ≠ [] ∨ r.2.1 ≠ [])
    (domain : RStr) (auths : List RStr) (out : ResolvedSet)
    (h : nsLoop rec domain auths = some out) : out.1 ≠ [] ∨ out.2.1 ≠ [] := by
  induction auths with
  | nil => simp [nsLoop] at h
  | cons a rest ih =>
    simp only [nsLoop] at h
    split at h
    · rename_i t heq
      split at h
      · rename_i o hn
        injection h with h1
        subst h1
        exact nsAddrLoop_ok_nonempty rec hrec domain t.1 _ hn
      · exact ih h
    · exact ih h

/-- C8: whenever `resolve` succeeds — through any branch, any oracle,
any depth — the returned triple has a non-empty IPv4 or IPv6 component:
the direct branch checks non-emptiness before returning, and every
other branch only forwards `Ok` results of recursive calls. -/
theorem c8_success_has_addresses (net : Net) (depth : Nat) (domain : RStr)
    (address : Addr) (r : ResolvedSet)
    (h : resolve net depth domain address = .ok r) : r.1 ≠ [] ∨ r.2.1 ≠ [] := by
  induction depth generalizing domain address r with
  | zero => simp [resolve] at h
  | succ d ih =>
    simp only [resolve] at h
    split at h
    · rename_i e heq
      exact absurd h (by simp)
    · rename_i res heq
      split at h
      · rename_i hcond
        injection h with h1
        subst h1
        simpa [List.isEmpty_iff] using hcond
      · rename_i hcond
        split at h
        · exact ih _ _ _ h
        · rename_i hh
          split at h
          · rename_i out hg
            subst h
            exact glueLoop_ok_nonempty _ (fun a b c hc => ih a b c hc) domain _ r hg
          · rename_i hg
            split at h
            · rename_i r2 hn
              injection h with h1
              subst h1
              exact nsLoop_ok_nonempty _ (fun a b c hc => ih a b c hc) domain _ _ hn
            · exact absurd h (by simp)

/-- Witness for C8: a depth-1 resolution against an oracle with one A
answer. -/
theorem c8_witness :
    ([RData.A [9, 9, 9, 9]] : List RData) ≠ [] ∨ ([] : List RData) ≠ [] :=
  c8_success_has_addresses c8net 1 [] rootAddr ([.A [9, 9, 9, 9]], [], [])
    (by decide)

/-! ## Claim C2, counterexample -/

/-- C2 counterexample: `c2msg` has one question with the empty qname
(its single empty label is within every label limit), yet the decode of
its encoding yields a different question (`qname "."`, `qtype 0`,
`qclass 256`): `write_str` emits two zero bytes for the empty name, the
reader consumes only one, and the cursor shifts by one byte. -/
theorem c2_roundtrip_cex :
    (∀ l ∈ splitOnDot ([] : RStr), l.length ≤ 63) ∧
    Dns.encode c2msg =
      .ok [0, 1, 0, 0, 0, 1, 0, 0, 0, 0, 0, 0, 0, 0, 0, 1, 0, 1] ∧
    Dns.decode [0, 1, 0, 0, 0, 1, 0, 0, 0, 0, 0, 0, 0, 0, 0, 1, 0, 1] =
      some (.ok c2msgDecoded) ∧
    c2msgDecoded.questions ≠ c2msg.questions := by decide

/-! ## Reads-what-was-written lemmas -/


theorem segAt_length {d : List Nat} {i : Nat} {e : List Nat} (h : SegAt d i e) :
    i + e.length ≤ d.length := by
  obtain ⟨pre, post, rfl, rfl⟩ := h
  simp [List.length_append]

theorem segAt_front {d : List Nat} {i : Nat} {e1 e2 : List Nat}
    (h : SegAt d i (e1 ++ e2)) : SegAt d i e1 := by
  obtain ⟨pre, post, rfl, rfl⟩ := h
  exact ⟨pre, e2 ++ post, by simp [List.append_assoc], rfl⟩

theorem segAt_suffix {d : List Nat} {i : Nat} (e1 : List Nat) {e2 : List Nat}
    (h : SegAt d i (e1 ++ e2)) : SegAt d (i + e1.length) e2 := by
  obtain ⟨pre, post, rfl, rfl⟩ := h
  exact ⟨pre ++ e1, post, by simp [List.append_assoc], by simp⟩

theorem segAt_get? {d : List Nat} {i : Nat} {b : Nat} {e : List Nat}
    (h : SegAt d i (b :: e)) : d.get? i = some b := by
  obtain ⟨pre, post, rfl, rfl⟩ := h
  rw [List.get?_eq_getElem?, List.getElem?_append_right (Nat.le_refl _)]
  simp

theorem segAt_getElem {d : List Nat} {i : Nat} {b : Nat} {e : List Nat}
    (h : SegAt d i (b :: e)) : d[i]? = some b := by
  rw [← List.get?_eq_getElem?]
  exact segAt_get? h

theorem segAt_slice {d : List Nat} {i : Nat} {e : List Nat} (h : SegAt d i e) :
    sliceGet d i (i + e.length) = some e := by
  have hlen := segAt_length h
  obtain ⟨pre, post, rfl, rfl⟩ := h
  rw [sliceGet, if_pos ⟨by omega, hlen⟩]
  rw [List.drop_left]
  rw [show pre.length + e.length - pre.length = e.length by omega]
  rw [List.take_left]

theorem dreads_congr {α : Type} {e e' : List Nat} {p : Decoder α} {v : α}
    (h : DReads e p v) (he : e' = e) : DReads e' p v := he ▸ h

theorem dreads_pure {α : Type} (a : α) : DReads [] (dpure a) a := by
  intro d i h
  simp [dpure]

theorem dreads_bind {α β : Type} {e1 e2 : List Nat} {p : Decoder α}
    {f : α → Decoder β} {v : α} {w : β}
    (h1 : DReads e1 p v) (h2 : DReads e2 (f v) w) :
    DReads (e1 ++ e2) (dbind p f) w := by
  intro d i hseg
  have ha := h1 d i (segAt_front hseg)
  have hb := h2 d (i + e1.length) (segAt_suffix e1 hseg)
  simp [dbind, ha, hb, List.length_append, Nat.add_assoc]

theorem dreads_u8 (b : Nat) : DReads [b] rdU8 b := by
  intro d i h
  have hg := segAt_getElem h
  simp [rdU8, liftB, readU8P, hg, Except.mapError]

theorem dreads_u16 (v : Nat) (hv : v < 65536) : DReads (u16be v) rdU16 v := by
  intro d i h
  have hs : sliceGet d i (i + 2) = some (u16be v) := by
    simpa [u16be] using segAt_slice h
  simp [rdU16, liftB, readU16P, hs, u16be, Except.mapError, List.getD_cons_zero, List.getD_cons_succ]
  omega

theorem dreads_u32 (v : Nat) (hv : v < 4294967296) : DReads (u32be v) rdU32 v := by
  intro d i h
  have hs : sliceGet d i (i + 4) = some (u32be v) := by
    simpa [u32be] using segAt_slice h
  simp [rdU32, liftB, readU32P, hs, u32be, Except.mapError, List.getD_cons_zero, List.getD_cons_succ]
  omega

theorem dreads_nbytes (e : List Nat) : DReads e (rdNBytes e.length) e := by
  intro d i h
  have hs : sliceGet d i (i + e.length) = some e := segAt_slice h
  simp [rdNBytes, liftB, readNBytesP, hs, Except.mapError]

theorem labelsEnc_cons_split (l : RStr) (ls : List RStr) :
    labelsEnc (l :: ls) = [l.length] ++ (l ++ labelsEnc ls) := by
  simp [labelsEnc, labelsEncNoTerm_cons, List.append_assoc]

theorem labelsEnc_length_cons (l : RStr) (ls : List RStr) :
    (labelsEnc (l :: ls)).length = 1 + l.length + (labelsEnc ls).length := by
  simp [labelsEnc_cons_split l ls, List.length_append]
  omega

/-- The name-reader loop, run where the encoding of a label list sits,
accumulates exactly those labels and stops after the terminator. -/
theorem readNameLoop_wf (ls : List RStr)
    (hwf : ∀ l ∈ ls, l ≠ [] ∧ l.length ≤ 63 ∧ validUtf8 l = true) :
    ∀ fuel d i acc jumped jumpIdx, ls.length < fuel → SegAt d i (labelsEnc ls) →
      readNameLoop d fuel i acc jumped jumpIdx =
        some (.ok
          (if (acc ++ ls).isEmpty then [46] else joinDots (acc ++ ls),
           if jumped then jumpIdx else i + (labelsEnc ls).length)) := by
  induction ls with
  | nil =>
    intro fuel d i acc jumped jumpIdx hfuel hseg
    match fuel, hfuel with
    | fuel + 1, _ =>
      have hget : d[i]? = some 0 := segAt_getElem
        (by simpa [labelsEnc, labelsEncNoTerm] using hseg)
      simp only [readNameLoop, List.get?_eq_getElem?, hget]
      simp only [if_true, List.append_nil]
      rfl
  | cons l ls ih =>
    intro fuel d i acc jumped jumpIdx hfuel hseg
    obtain ⟨hne, hlen, hutf⟩ := hwf l (by simp)
    have hwf2 : ∀ x ∈ ls, x ≠ [] ∧ x.length ≤ 63 ∧ validUtf8 x = true :=
      fun x hx => hwf x (by simp [hx])
    match fuel, hfuel with
    | fuel + 1, hfuel =>
      rw [labelsEnc_cons_split] at hseg
      have hseg' : SegAt d i (l.length :: (l ++ labelsEnc ls)) := by simpa using hseg
      have hget : d[i]? = some l.length := segAt_getElem hseg'
      have hseg2 : SegAt d (i + 1) (l ++ labelsEnc ls) := by
        simpa using segAt_suffix [l.length] hseg
      have hslice : sliceGet d (i + 1) (i + 1 + l.length) = some l :=
        segAt_slice (segAt_front hseg2)
      have hsegrest : SegAt d (i + 1 + l.length) (labelsEnc ls) := by
        have := segAt_suffix l hseg2
        simpa [Nat.add_assoc] using this
      have hland : ¬ (l.length &&& 192 = 192) := by
        rw [land192_small l.length (by omega)]
        decide
      have hlz : ¬ (l.length = 0) := by
        cases l with
        | nil => exact absurd rfl hne
        | cons x xs => simp
      have hfuel2 : ls.length < fuel := by
        simp at hfuel
        omega
      simp only [readNameLoop, List.get?_eq_getElem?, hget]
      rw [if_neg hland, if_neg hlz]
      simp only [hslice, show fromUtf8 l = some l from by simp [fromUtf8, hutf]]
      rw [ih hwf2 fuel d (i + 1 + l.length) (acc ++ [l]) jumped jumpIdx hfuel2 hsegrest]
      rw [labelsEnc_length_cons]
      rw [show (acc ++ [l]) ++ ls = acc ++ l :: ls by simp [List.append_assoc]]
      rw [show i + 1 + l.length + (labelsEnc ls).length =
        i + (1 + l.length + (labelsEnc ls).length) by omega]

/-- `read_str` over the encoding of a well-formed name returns that
name, consuming exactly the encoding. -/
theorem dreads_str (n : RStr) (h : wfName n = true) : DReads (nameEnc n) rdStr n := by
  intro d i hseg
  have hwf : ∀ l ∈ splitOnDot n, l ≠ [] ∧ l.length ≤ 63 ∧ validUtf8 l = true := by
    intro l hl
    have hb := (List.all_eq_true.mp h) l hl
    simp only [Bool.and_eq_true, bne_iff_ne, ne_eq, decide_eq_true_eq] at hb
    refine ⟨?_, hb.1.2, hb.2⟩
    intro hnil
    exact hb.1.1 (by simp [hnil])
  have hlen : (splitOnDot n).length < d.length + 1 := by
    have h1 := length_lt_labelsEnc_length (splitOnDot n)
    have h2 := segAt_length hseg
    simp [nameEnc] at h2
    omega
  have hrun := readNameLoop_wf (splitOnDot n) hwf (d.length + 1) d i [] false 0 hlen
    (by simpa [nameEnc] using hseg)
  have hnil : (splitOnDot n).isEmpty = false := by
    cases hsp : splitOnDot n with
    | nil => exact absurd hsp (splitOnDot_ne_nil n)
    | cons a b => rfl
  simp [rdStr, readStrP, readNameAtF, hrun, hnil, joinDots_splitOnDot, nameEnc, Except.mapError]

/-- `read_str` on a lone zero octet returns the root name `"."`. -/
theorem dreads_str_root : DReads [0] rdStr [46] := by
  intro d i hseg
  have hrun := readNameLoop_wf [] (by intro l hl; cases hl) (d.length + 1) d i [] false 0
    (by simp) (by simpa [labelsEnc, labelsEncNoTerm] using hseg)
  simp [rdStr, readStrP, readNameAtF, hrun, labelsEnc, labelsEncNoTerm, Except.mapError]



/-- For a well-formed name, `write_str` appends exactly `nameEnc`. -/
theorem writeStr_wf (n : RStr) (h : wfName n = true) : (writeStr n []).2 = nameEnc n := by
  have hle : ∀ l ∈ splitOnDot n, l.length ≤ 63 := by
    intro l hl
    have hb := (List.all_eq_true.mp h) l hl
    simp only [Bool.and_eq_true, decide_eq_true_eq] at hb
    exact hb.1.2
  rw [writeStr, writeLabels_ok _ _ hle]
  simp [nameEnc]

/-- Questions decode back to themselves from their encoding. -/
theorem dreads_questions (qs : List QueryRecord)
    (h : ∀ q ∈ qs, wfQuestion q = true) :
    DReads (qsEnc qs) (decodeQuestions qs.length) qs := by
  induction qs with
  | nil =>
    intro d i hseg
    simpa [decodeQuestions] using dreads_pure ([] : List QueryRecord) d i hseg
  | cons q rest ih =>
    have hq := h q (by simp)
    simp only [wfQuestion, Bool.and_eq_true, decide_eq_true_eq] at hq
    obtain ⟨⟨hn, ht⟩, hc⟩ := hq
    have hrest : ∀ x ∈ rest, wfQuestion x = true := fun x hx => h x (by simp [hx])
    have comp : DReads (nameEnc q.qname ++ (u16be q.qtype ++ (u16be q.qclass ++ (qsEnc rest ++ []))))
        (decodeQuestions (rest.length + 1)) (q :: rest) := by
      apply dreads_bind (dreads_str q.qname hn)
      apply dreads_bind (dreads_u16 q.qtype ht)
      apply dreads_bind (dreads_u16 q.qclass hc)
      apply dreads_bind (ih hrest)
      exact dreads_pure (q :: rest)
    exact dreads_congr comp (by simp [qsEnc, qEnc, List.append_assoc, writeStr_wf q.qname hn])

/-- The AAAA scratch-buffer fold appends the big-endian segment pairs. -/
theorem segsFoldl_eq (segs : List Nat) (buf : List Nat) :
    segs.foldl (fun b s => writeU16 b s) buf = buf ++ segs.flatMap u16be := by
  induction segs generalizing buf with
  | nil => simp
  | cons s rest ih =>
    simp only [List.foldl_cons, ih, List.flatMap_cons]
    simp [writeU16, List.append_assoc]

theorem flatMap_u16be_length (segs : List Nat) :
    (segs.flatMap u16be).length = 2 * segs.length := by
  induction segs with
  | nil => simp
  | cons s rest ih => simp [List.flatMap_cons, u16be, ih]; omega

/-- Reassembling the 16-bit groups recovers the segments. -/
theorem segsOf_flatMap (segs : List Nat) (h : ∀ s ∈ segs, s < 65536) :
    segsOf (segs.flatMap u16be) = segs := by
  induction segs with
  | nil => simp [segsOf]
  | cons s rest ih =>
    have hs := h s (by simp)
    have hrest : ∀ x ∈ rest, x < 65536 := fun x hx => h x (by simp [hx])
    rw [List.flatMap_cons]
    rw [show u16be s ++ rest.flatMap u16be =
      (s / 256 % 256) :: (s % 256) :: rest.flatMap u16be from rfl]
    rw [show segsOf ((s / 256 % 256) :: (s % 256) :: rest.flatMap u16be) =
      (s / 256 % 256 * 256 + s % 256) :: segsOf (rest.flatMap u16be) from rfl]
    rw [ih hrest]
    congr 1
    omega

/-- The encoded rdata length always fits the 16-bit length field for
well-formed records. -/
theorem rdataBytes_len_lt (atype : Nat) (rd : RData)
    (h : wfRData atype rd = true) : (rdataBytes rd).length < 65536 := by
  cases rd with
  | A o =>
    simp only [wfRData, Bool.and_eq_true, beq_iff_eq] at h
    simp [rdataBytes, h.1.2]
  | AAAA segs =>
    simp only [wfRData, Bool.and_eq_true, beq_iff_eq] at h
    have hl : (rdataBytes (RData.AAAA segs)).length = 2 * segs.length := by
      simp only [rdataBytes, segsFoldl_eq, List.nil_append, flatMap_u16be_length]
    rw [hl, h.1.2]
    omega
  | NS n =>
    simp only [wfRData, Bool.and_eq_true, beq_iff_eq, decide_eq_true_eq] at h
    rw [rdataBytes, writeStr_wf n h.1.2]
    exact h.2
  | CNAME n =>
    simp only [wfRData, Bool.and_eq_true, beq_iff_eq, decide_eq_true_eq] at h
    rw [rdataBytes, writeStr_wf n h.1.2]
    exact h.2
  | EMPTY => simp [rdataBytes]

/-- Decoding the encoded rdata of a well-formed record yields the rdata
back, consuming exactly its bytes. -/
theorem dreads_rdata (atype : Nat) (rd : RData) (h : wfRData atype rd = true) :
    DReads (rdataBytes rd) (decodeRData atype (rdataBytes rd).length) rd := by
  cases rd with
  | A o =>
    simp only [wfRData, Bool.and_eq_true, beq_iff_eq] at h
    obtain ⟨⟨h1, h4⟩, _⟩ := h
    subst h1
    have comp : DReads (o ++ []) (decodeRData 1 o.length) (.A o) := by
      rw [decodeRData, if_pos rfl]
      apply dreads_bind (dreads_nbytes o)
      rw [if_neg (by omega)]
      exact dreads_pure (RData.A o)
    simpa [rdataBytes] using comp
  | AAAA segs =>
    simp only [wfRData, Bool.and_eq_true, beq_iff_eq] at h
    obtain ⟨⟨h28, h8⟩, hlt⟩ := h
    subst h28
    have hlt2 : ∀ s ∈ segs, s < 65536 := by
      intro s hs
      have := (List.all_eq_true.mp hlt) s hs
      simpa using this
    have hbytes : rdataBytes (RData.AAAA segs) = segs.flatMap u16be := by
      simp [rdataBytes, segsFoldl_eq]
    have hlen : (segs.flatMap u16be).length = 16 := by
      rw [flatMap_u16be_length, h8]
    have comp : DReads (segs.flatMap u16be ++ [])
        (decodeRData 28 (segs.flatMap u16be).length) (.AAAA segs) := by
      rw [decodeRData, if_neg (by omega), if_pos rfl]
      apply dreads_bind (dreads_nbytes (segs.flatMap u16be))
      rw [if_neg (by rw [hlen]; omega)]
      rw [segsOf_flatMap segs hlt2]
      exact dreads_pure (RData.AAAA segs)
    simpa [hbytes] using comp
  | NS n =>
    simp only [wfRData, Bool.and_eq_true, beq_iff_eq, decide_eq_true_eq] at h
    obtain ⟨⟨h2, hn⟩, _⟩ := h
    subst h2
    intro d i hseg
    rw [rdataBytes, writeStr_wf n hn] at hseg ⊢
    have hname := dreads_str n hn d i hseg
    rw [decodeRData, if_neg (by omega), if_neg (by omega), if_pos (by omega)]
    simp only [dbind, dgetIdx, hname]
    rw [if_neg (by omega)]
    simp [dbind, skipTo, Nat.sub_self, skipGo, dpure]
  | CNAME n =>
    simp only [wfRData, Bool.and_eq_true, beq_iff_eq, decide_eq_true_eq] at h
    obtain ⟨⟨h5, hn⟩, _⟩ := h
    subst h5
    intro d i hseg
    rw [rdataBytes, writeStr_wf n hn] at hseg ⊢
    have hname := dreads_str n hn d i hseg
    rw [decodeRData, if_neg (by omega), if_neg (by omega), if_pos (by omega)]
    simp only [dbind, dgetIdx, hname]
    rw [if_neg (by omega)]
    simp [dbind, skipTo, Nat.sub_self, skipGo, dpure]
  | EMPTY =>
    simp only [wfRData, Bool.and_eq_true, bne_iff_ne, ne_eq] at h
    obtain ⟨⟨⟨n1, n28⟩, n2⟩, n5⟩ := h
    have comp : DReads [] (decodeRData atype (rdataBytes RData.EMPTY).length)
        RData.EMPTY := by
      rw [decodeRData, if_neg n1, if_neg n28, if_neg (by tauto)]
      exact dreads_pure RData.EMPTY
    simpa [rdataBytes] using comp

/-- Records decode from their encoding to their normalised form. -/
theorem dreads_answers (rs : List AnswerRecord)
    (h : ∀ a ∈ rs, wfRecord a = true) :
    DReads (ansEnc rs) (decodeAnswers rs.length) (rs.map normRecord) := by
  induction rs with
  | nil =>
    intro d i hseg
    simpa [decodeAnswers] using dreads_pure ([] : List AnswerRecord) d i hseg
  | cons a rest ih =>
    have ha := h a (by simp)
    simp only [wfRecord, Bool.and_eq_true, decide_eq_true_eq] at ha
    obtain ⟨⟨⟨⟨hname, hat⟩, hac⟩, httl⟩, hrd⟩ := ha
    have hrest : ∀ x ∈ rest, wfRecord x = true := fun x hx => h x (by simp [hx])
    have hrdlen := rdataBytes_len_lt a.atype a.rdata hrd
    have hnm : DReads (if a.atype = 41 then [0] else (writeStr a.aname []).2)
        rdStr a.aname := by
      by_cases h41 : a.atype = 41
      · rw [if_pos h41]
        rw [h41] at hname
        simp at hname
        rw [hname]
        exact dreads_str_root
      · rw [if_neg h41]
        simp [h41] at hname
        rw [writeStr_wf a.aname hname]
        exact dreads_str a.aname hname
    have comp : DReads ((if a.atype = 41 then [0] else (writeStr a.aname []).2) ++
        (u16be a.atype ++ (u16be a.aclass ++ (u32be a.ttl ++
          (u16be (rdataBytes a.rdata).length ++ (rdataBytes a.rdata ++
            (ansEnc rest ++ [])))))))
        (decodeAnswers (rest.length + 1)) (normRecord a :: rest.map normRecord) := by
      apply dreads_bind hnm
      apply dreads_bind (dreads_u16 a.atype hat)
      apply dreads_bind (dreads_u16 a.aclass hac)
      apply dreads_bind (dreads_u32 a.ttl httl)
      apply dreads_bind (dreads_u16 (rdataBytes a.rdata).length hrdlen)
      apply dreads_bind (dreads_rdata a.atype a.rdata hrd)
      apply dreads_bind (ih hrest)
      exact dreads_pure (normRecord a :: rest.map normRecord)
    exact dreads_congr comp (by simp [ansEnc, recEnc, List.append_assoc])

/-- Decoding the byte image of a well-formed message yields its
normalised form. -/
theorem decode_msgEnc (m : Dns) (h : wfDns m = true) :
    Dns.decode (msgEnc m) = some (.ok (normDns m)) := by
  simp only [wfDns, Bool.and_eq_true, decide_eq_true_eq, beq_iff_eq] at h
  obtain ⟨⟨⟨⟨⟨⟨⟨⟨⟨⟨⟨⟨⟨hid, hfl⟩, hqd⟩, han⟩, hns⟩, har⟩, hql⟩, hal⟩,
    haul⟩, hadl⟩, hqall⟩, haall⟩, hauall⟩, hadall⟩ := h
  simp only [wfFlags, Bool.and_eq_true, decide_eq_true_eq] at hfl
  obtain ⟨⟨hop, hz⟩, hrc⟩ := hfl
  have hflt := encodeFlags_lt m.header.flags hop hz hrc
  have hfrt := decode_encode_flags m.header.flags hop hz hrc
  have hqw : ∀ q ∈ m.questions, wfQuestion q = true := List.all_eq_true.mp hqall
  have haw : ∀ a ∈ m.answers, wfRecord a = true := List.all_eq_true.mp haall
  have hauw : ∀ a ∈ m.authorities, wfRecord a = true := List.all_eq_true.mp hauall
  have hadw : ∀ a ∈ m.additionals, wfRecord a = true := List.all_eq_true.mp hadall
  have comp : DReads
      (u16be m.header.id ++ (u16be (encodeFlags m.header.flags) ++
        (u16be m.header.qd_count ++ (u16be m.header.an_count ++
          (u16be m.header.ns_count ++ (u16be m.header.ar_count ++
            (qsEnc m.questions ++ (ansEnc m.answers ++
              (ansEnc m.authorities ++ (ansEnc m.additionals ++ []))))))))))
      (dbind rdU16 fun id =>
        dbind rdU16 fun flagsRaw =>
        dbind rdU16 fun qd =>
        dbind rdU16 fun an =>
        dbind rdU16 fun ns =>
        dbind rdU16 fun ar =>
        dbind (decodeQuestions qd) fun questions =>
        dbind (decodeAnswers an) fun answers =>
        dbind (decodeAnswers ns) fun authorities =>
        dbind (decodeAnswers ar) fun additionals =>
        dpure (Dns.mk
          (Header.mk id (decodeFlags flagsRaw) qd an ns ar)
          questions answers authorities additionals))
      (normDns m) := by
    apply dreads_bind (dreads_u16 m.header.id hid)
    apply dreads_bind (dreads_u16 (encodeFlags m.header.flags) hflt)
    apply dreads_bind (dreads_u16 m.header.qd_count (by omega))
    apply dreads_bind (dreads_u16 m.header.an_count (by omega))
    apply dreads_bind (dreads_u16 m.header.ns_count (by omega))
    apply dreads_bind (dreads_u16 m.header.ar_count (by omega))
    rw [hqd]
    apply dreads_bind (dreads_questions m.questions hqw)
    rw [han]
    apply dreads_bind (dreads_answers m.answers haw)
    rw [hns]
    apply dreads_bind (dreads_answers m.authorities hauw)
    rw [har]
    apply dreads_bind (dreads_answers m.additionals hadw)
    rw [hfrt]
    have heta : Dns.mk
        (Header.mk m.header.id m.header.flags m.questions.length
          m.answers.length m.authorities.length m.additionals.length)
        m.questions (m.answers.map normRecord) (m.authorities.map normRecord)
        (m.additionals.map normRecord) = normDns m := by
      rw [normDns]
      congr 1
      rw [← hqd, ← han, ← hns, ← har]
    rw [heta]
    exact dreads_pure (normDns m)
  have hseg : SegAt (msgEnc m) 0
      (u16be m.header.id ++ (u16be (encodeFlags m.header.flags) ++
        (u16be m.header.qd_count ++ (u16be m.header.an_count ++
          (u16be m.header.ns_count ++ (u16be m.header.ar_count ++
            (qsEnc m.questions ++ (ansEnc m.answers ++
              (ansEnc m.authorities ++ (ansEnc m.additionals ++ [])))))))))) :=
    ⟨[], [], by simp [msgEnc, hdrEnc, List.append_assoc], rfl⟩
  have hrun := comp (msgEnc m) 0 hseg
  rw [show Dns.decode (msgEnc m) =
      ((dbind rdU16 fun id =>
        dbind rdU16 fun flagsRaw =>
        dbind rdU16 fun qd =>
        dbind rdU16 fun an =>
        dbind rdU16 fun ns =>
        dbind rdU16 fun ar =>
        dbind (decodeQuestions qd) fun questions =>
        dbind (decodeAnswers an) fun answers =>
        dbind (decodeAnswers ns) fun authorities =>
        dbind (decodeAnswers ar) fun additionals =>
        dpure (Dns.mk
          (Header.mk id (decodeFlags flagsRaw) qd an ns ar)
          questions answers authorities additionals)) (msgEnc m) 0).map
        (Except.map Prod.fst) from rfl]
  rw [hrun]
  rfl

/-! ## Claim C2, amended -/

/-- C2 amended: for well-formed messages (counts equal to vector
lengths, in-range flag fields, names made of non-empty labels of at
most 63 valid-UTF-8 bytes, type-consistent records), decoding the
encoding reproduces the message exactly, except that each record
`length` field becomes the length of its encoded rdata. -/
theorem c2_roundtrip_wf (m : Dns) (h : wfDns m = true) :
    ∃ B, Dns.encode m = .ok B ∧ Dns.decode B = some (.ok (normDns m)) :=
  ⟨msgEnc m, encode_eq m, decode_msgEnc m h⟩

/-- Witness for C2 at scenario S1 (one question for
`"www.example.com"`); its normalised form is itself. -/
theorem c2_witness :
    wfDns s1msg = true ∧
    ∃ B, Dns.encode s1msg = .ok B ∧ Dns.decode B = some (.ok (normDns s1msg)) :=
  ⟨by decide, c2_roundtrip_wf s1msg (by decide)⟩

end DnsResolver
